import Mathlib

/-!
Verification of the bunnysync synchronization tool against its design
specification.  The definitions below are a shallow embedding of the
three source files (src/local.rs, src/storage.rs, src/main.rs):

* filesystem paths (Rust std::path::PathBuf) are modelled as a root flag
  plus a normalized list of components, mirroring the component view that
  Rust uses for strip_prefix, push and equality;
* timestamps (chrono DateTime / NaiveDateTime) are modelled as Int;
* byte counts (u64) are modelled as Nat (no arithmetic is performed on
  them, only equality);
* the network and the filesystem are modelled as explicit inputs
  (enumeration results, a directory-existence oracle, a listing function)
  and the side effects of one engine run are reified as a list of events.
-/

/-- One Rust path component (std::path::Component), without the windows
prefix variants.  The root component is modelled by the `abs` flag of
`RPath` instead. -/
inductive Comp where
  | curDir : Comp
  | parentDir : Comp
  | normal : String → Comp
deriving DecidableEq

/-- A Rust PathBuf viewed through its components: an absolute flag and the
normalized component list.  Rust compares paths by components, so this is
the equality the source relies on. -/
structure RPath where
  abs : Bool
  comps : List Comp
deriving DecidableEq

/-- Split a character list on the separator character, keeping empty
chunks (they are filtered later, as Rust components collapse repeated
separators). -/
def splitSlash : List Char → List (List Char)
  | [] => [[]]
  | c :: rest =>
    if c = '/' then [] :: splitSlash rest
    else
      match splitSlash rest with
      | [] => [[c]]
      | t :: ts => (c :: t) :: ts

/-- The non-empty slash-separated chunks of a string. -/
def pTokens (s : String) : List (List Char) :=
  (splitSlash s.data).filter (fun t => !t.isEmpty)

/-- Classify one chunk as a Rust path component. -/
def toComp (t : List Char) : Comp :=
  if t = ['.'] then Comp.curDir
  else if t = ['.', '.'] then Comp.parentDir
  else Comp.normal (String.mk t)

/-- True for every component other than the current-directory marker. -/
def notCur : Comp → Bool
  | Comp.curDir => false
  | _ => true

/-- Normalization of a component list as performed by Rust Components:
current-directory markers are dropped, except that a relative path keeps
one leading marker. -/
def normComps (abs : Bool) (l : List Comp) : List Comp :=
  if abs then l.filter notCur
  else
    match l with
    | Comp.curDir :: rest => Comp.curDir :: rest.filter notCur
    | _ => l.filter notCur

/-- Whether a path string is absolute (starts with the separator). -/
def isAbs (s : String) : Bool :=
  s.data.head? == some '/'

/-- Parse a string into the component view of a Rust Path. -/
def parsePath (s : String) : RPath :=
  let a := isAbs s
  { abs := a, comps := normComps a ((pTokens s).map toComp) }

/-- The full component sequence of a path, with `none` standing for the
root component.  This is the sequence Rust strip_prefix compares. -/
def fullComps (p : RPath) : List (Option Comp) :=
  (if p.abs then [none] else []) ++ p.comps.map some

/-- Rust Path::strip_prefix: succeeds when the full component sequence of
`pre` is a prefix of that of `p`; the remainder is a relative path. -/
def stripPrefixPath (p pre : RPath) : Option RPath :=
  if (fullComps pre).isPrefixOf (fullComps p) then
    some { abs := false,
           comps := ((fullComps p).drop (fullComps pre).length).filterMap id }
  else none

/-- Rust PathBuf::push: an absolute argument replaces the receiver, a
relative one is appended (the concatenation is re-normalized, which is
what the component view of the pushed string yields). -/
def pathPush (base p : RPath) : RPath :=
  if p.abs then p
  else { abs := base.abs, comps := normComps base.abs (base.comps ++ p.comps) }

/-- Rust Path::parent: drop the last component; none at the root. -/
def parentPath (p : RPath) : Option RPath :=
  match p.comps with
  | [] => none
  | _ => some { abs := p.abs, comps := p.comps.dropLast }

/-- Render one component back to a string. -/
def renderComp : Comp → String
  | Comp.curDir => "."
  | Comp.parentDir => ".."
  | Comp.normal s => s

/-- Join strings with the separator. -/
def joinSlash : List String → String
  | [] => ""
  | [x] => x
  | x :: xs => x ++ "/" ++ joinSlash xs

/-- Render a path back to a string (Rust PathBuf::to_str on the
normalized component view). -/
def renderPath (p : RPath) : String :=
  (if p.abs then "/" else "") ++ joinSlash (p.comps.map renderComp)

/-- Rust Path::file_name of a path string: its last normal component
(the source unwraps the Option, so the failure case is irrelevant to the
claims and is rendered as the empty string). -/
def fileName (p : String) : String :=
  match (parsePath p).comps.getLast? with
  | some (Comp.normal s) => s
  | _ => ""

/-- The component list a string contributes when it sits below the root
of an absolute path (used to state the path-mapper claim). -/
def relComps (s : String) : List Comp :=
  normComps true ((pTokens s).map toComp)

/-! ## Exclusion matching (src/main.rs is_excluded and the glob-match crate) -/

/-- Fuel-indexed glob matcher.  The first list is the glob pattern, the
second the candidate string; `*` matches any run of characters and `?`
one character.  Fuel only serves to make the recursion structural; every
step shortens the combined length, so total length plus one is enough. -/
def globAux : Nat → List Char → List Char → Bool
  | 0, _, _ => false
  | fuel + 1, g, p =>
    match g, p with
    | [], [] => true
    | [], _ :: _ => false
    | '*' :: g', _ =>
      globAux fuel g' p ||
        (match p with
         | [] => false
         | _ :: p' => globAux fuel ('*' :: g') p')
    | '?' :: g', _ :: p' => globAux fuel g' p'
    | '?' :: _, [] => false
    | c :: g', d :: p' => (c == d) && globAux fuel g' p'
    | _ :: _, [] => false

/-- Modelled from the spec: shell-style glob matching with `*` as the only
documented wildcard (section 4.2), implementing the external glob-match
crate used by src/main.rs, whose first argument is the glob pattern and
whose second argument is the string matched against it.  Character
classes and brace lists are not exercised by any claim and are omitted. -/
def globMatch (glob cand : String) : Bool :=
  globAux (glob.data.length + cand.data.length + 1) glob.data cand.data

/-- src/main.rs is_excluded: the source passes `file_name` as the FIRST
argument of glob_match, i.e. the file name is used as the glob pattern
and the exclusion pattern as the matched string. -/
def is_excluded (file_name : String) (exclude_patterns : List String) : Bool :=
  exclude_patterns.any (fun pattern => globMatch file_name pattern)

/-! ## Storage model (src/storage.rs) -/

/-- src/storage.rs StorageObject.  The inert metadata fields guid,
storage_zone_name and date_created are never read by the engine and are
omitted. -/
structure StorageObject where
  path : String
  object_name : String
  length : Nat
  last_changed : Int
  is_directory : Bool
deriving DecidableEq

/-- src/storage.rs zone_name: the first non-empty slash-separated part. -/
def zone_name (remote : String) : String :=
  match (remote.data.splitOn '/').filter (fun t => !t.isEmpty) with
  | [] => ""
  | t :: _ => String.mk t

/-- src/storage.rs strip_zone_prefix: drop a leading zone marker. -/
def strip_zone_prefix (path : String) : String :=
  if "zone://".data.isPrefixOf path.data then String.mk (path.data.drop 7)
  else path

/-- The worklist loop of src/storage.rs get_all_objects.  `listing` is the
Storage Client listOneLevel capability; the head of the path list is the
top of the Rust Vec used as a stack; fuel bounds the number of loop
iterations (the Rust loop runs unboundedly, so exhausted fuel yields
none).  The second result component records, in order, the paths passed
to listOneLevel. -/
def gaoLoop (listing : String → List StorageObject) :
    Nat → List StorageObject → List String →
    Option (List StorageObject × List String)
  | _, objects, [] => some (objects, [])
  | 0, _, _ :: _ => none
  | fuel + 1, objects, next :: rest =>
    let records := listing next
    let newStack := records.foldl
      (fun st r =>
        if r.is_directory then (r.path ++ r.object_name ++ "/") :: st else st)
      rest
    match gaoLoop listing fuel (objects ++ records) newStack with
    | none => none
    | some (objs, calls) => some (objs, next :: calls)

/-- src/storage.rs get_all_objects: seed the worklist with the root path
and run the loop. -/
def get_all_objects (listing : String → List StorageObject) (fuel : Nat)
    (path : String) : Option (List StorageObject × List String) :=
  gaoLoop listing fuel [] [path]

/-! ## Local filesystem model (src/local.rs) -/

/-- src/local.rs LocalFile.  Paths are kept as the strings the walk
produced; relative_path is the path below the scan root. -/
structure LocalFile where
  relative_path : String
  path : String
  is_directory : Bool
  last_changed : Int
  length : Nat
deriving DecidableEq

/-- src/local.rs get_path: strip one leading zone prefix component pair
from the remote path if present, then push the remainder onto the local
base.  The final canonicalize call of the source only fires when the
target already exists on disk and otherwise returns the literal
concatenation (unwrap_or); the model has no disk, so it is the literal
concatenation. -/
def get_path (local_base zname remote_path : String) : RPath :=
  let lb := parsePath local_base
  let zonePref := parsePath ("/" ++ zname ++ "/")
  let rp := parsePath remote_path
  let rp2 := (stripPrefixPath rp zonePref).getD rp
  pathPush lb rp2

/-! ## Synchronization engine (src/main.rs) -/

/-- One observable action of an engine run: every Storage Client call and
every filesystem mutation or read performed by sync_to_remote and
sync_to_local, plus each printed line.  putObject carries the remote
destination path and the local file whose bytes were read and sent;
writeFile carries the local destination and the remote path whose bytes
were downloaded. -/
inductive Event where
  | readFile : String → Event
  | putObject : String → String → Event
  | deleteObject : String → Event
  | getObject : String → Event
  | createDirAll : RPath → Event
  | writeFile : RPath → String → Event
  | removeFile : String → Event
  | logLine : String → Event
deriving DecidableEq

/-- The events that mutate the remote namespace or the filesystem. -/
def isMutating : Event → Bool
  | Event.putObject _ _ => true
  | Event.deleteObject _ => true
  | Event.createDirAll _ => true
  | Event.writeFile _ _ => true
  | Event.removeFile _ => true
  | _ => false

/-- Concatenation of the per-element event lists, in element order. -/
def listFlat {α β : Type} (f : α → List β) : List α → List β
  | [] => []
  | a :: l => f a ++ listFlat f l

/-- src/main.rs get_remote_file_map: drop directories and excluded names,
key each object by container path plus object name. -/
def get_remote_file_map (exclude : List String) (objs : List StorageObject) :
    List (String × StorageObject) :=
  ((objs.filter (fun f => !f.is_directory)).filter
      (fun f => !is_excluded f.object_name exclude)).map
    (fun f => (f.path ++ f.object_name, f))

/-- src/main.rs get_local_file_map: drop directories and excluded names,
key each file by the zone-rooted relative path. -/
def get_local_file_map (zone : String) (exclude : List String)
    (files : List LocalFile) : List (String × LocalFile) :=
  ((files.filter (fun f => !f.is_directory)).filter
      (fun f => !is_excluded (fileName f.path) exclude)).map
    (fun f => ("/" ++ zone ++ "/" ++ f.relative_path, f))

/-- The body of the update loop of src/main.rs sync_to_remote for one
local map entry: re-check the exclusion of the file name, skip when the
remote entry at the same key is no older and of equal length, otherwise
read the local file and put it to the FIXED remote root path (the source
passes `&remote`, not the key), or only report in a dry run. -/
def pushEntryEvents (remote : String) (dry_run : Bool)
    (exclude : List String) (remote_files : List (String × StorageObject))
    (key : String) (lf : LocalFile) : List Event :=
  if is_excluded (fileName lf.path) exclude then []
  else
    let skip : Bool :=
      match List.lookup key remote_files with
      | some ro =>
        decide (lf.last_changed ≤ ro.last_changed) && decide (lf.length = ro.length)
      | none => false
    if skip then []
    else if dry_run then [Event.logLine ("Would update: " ++ lf.path)]
    else
      [Event.readFile lf.path, Event.putObject remote lf.path,
       Event.logLine ("Updated: " ++ lf.path)]

/-- The body of the delete loop of src/main.rs sync_to_remote for one
remote map key: delete the remote object at the key when it is absent
from the local map, or only report in a dry run. -/
def pushDeleteEvents (dry_run : Bool) (local_files : List (String × LocalFile))
    (key : String) : List Event :=
  if (List.lookup key local_files).isSome then []
  else if dry_run then [Event.logLine ("Would delete: " ++ key)]
  else [Event.deleteObject key, Event.logLine ("Deleted: " ++ key)]

/-- src/main.rs sync_to_remote: strip the zone marker, derive the zone
name, build both maps, run the update loop over the local map and, when
the delete flag is set, the delete loop over the remote map. -/
def sync_to_remote (localEnum : List LocalFile)
    (remoteEnum : List StorageObject) (remoteArg : String)
    (dry_run delete : Bool) (exclude : List String) : List Event :=
  let remote := strip_zone_prefix remoteArg
  let zone := zone_name remote
  let remote_files := get_remote_file_map exclude remoteEnum
  let local_files := get_local_file_map zone exclude localEnum
  listFlat (fun kv => pushEntryEvents remote dry_run exclude remote_files kv.1 kv.2)
      local_files ++
    (if delete then
      listFlat (fun kv => pushDeleteEvents dry_run local_files kv.1) remote_files
     else [])

/-- The body of the sync loop of src/main.rs sync_to_local for one remote
map entry: skip when the local entry at the same key satisfies
local.last_changed <= remote.last_changed with equal length (the source
repeats the push-mode comparison verbatim), otherwise download the
object, create the missing parent directory (dirExists is the
dir.exists() oracle of the filesystem) and write the file at the mapped
local path, or only report in a dry run. -/
def pullEntryEvents (dirExists : RPath → Bool) (localBase zname : String)
    (dry_run : Bool) (local_files : List (String × LocalFile))
    (key : String) (ro : StorageObject) : List Event :=
  let skip : Bool :=
    match List.lookup key local_files with
    | some lf =>
      decide (lf.last_changed ≤ ro.last_changed) && decide (lf.length = ro.length)
    | none => false
  if skip then []
  else
    let local_path := get_path localBase zname key
    if dry_run then
      [Event.logLine ("Would update: " ++ key ++ " -> " ++ renderPath local_path)]
    else
      let remote_path := ro.path ++ "/" ++ ro.object_name
      [Event.getObject remote_path] ++
        (match parentPath local_path with
         | some dir => if dirExists dir then [] else [Event.createDirAll dir]
         | none => []) ++
        [Event.writeFile local_path remote_path,
         Event.logLine ("Updated: " ++ key ++ " -> " ++ renderPath local_path)]

/-- The body of the delete loop of src/main.rs sync_to_local for one
local map key: when the key is absent from the remote map the source
calls std::fs::remove_file on the KEY string itself (not on the local
file path), or only reports in a dry run. -/
def pullDeleteEvents (dry_run : Bool)
    (remote_files : List (String × StorageObject)) (key : String) : List Event :=
  if (List.lookup key remote_files).isSome then []
  else if dry_run then [Event.logLine ("Would delete: " ++ key)]
  else [Event.removeFile key, Event.logLine ("Deleted: " ++ key)]

/-- src/main.rs sync_to_local: strip the zone marker, derive the zone
name, build both maps, run the sync loop over the remote map and, when
the delete flag is set, the delete loop over the local map. -/
def sync_to_local (dirExists : RPath → Bool) (localEnum : List LocalFile)
    (remoteEnum : List StorageObject) (localBase remoteArg : String)
    (dry_run delete : Bool) (exclude : List String) : List Event :=
  let remote := strip_zone_prefix remoteArg
  let zone := zone_name remote
  let remote_files := get_remote_file_map exclude remoteEnum
  let local_files := get_local_file_map zone exclude localEnum
  listFlat
      (fun kv => pullEntryEvents dirExists localBase zone dry_run local_files kv.1 kv.2)
      remote_files ++
    (if delete then
      listFlat (fun kv => pullDeleteEvents dry_run remote_files kv.1) local_files
     else [])

/-! ## Configuration loading (src/main.rs Args, Config, read_config_file) -/

/-- src/main.rs Args, the engine inputs fed by the CLI. -/
structure Args where
  api_key : Option String
  region : String
  source : String
  destination : String
  dry_run : Bool
  delete : Bool
  exclude : List String
deriving DecidableEq

/-- src/main.rs Config, the optional .bunnysync file contents. -/
structure Config where
  api_key : Option String
  region : Option String
  exclude : Option (List String)
deriving DecidableEq

/-- src/main.rs read_config_file: when a .bunnysync file is present and
parses (`cfg = some c`), a present api_key or region overrides the
argument; a present exclusion list replaces the argument list with the
list plus a forced ".bunnysync" pattern.  Absent file: no change. -/
def read_config_file (args : Args) (cfg : Option Config) : Args :=
  match cfg with
  | none => args
  | some c =>
    let args1 := if c.api_key.isSome then { args with api_key := c.api_key } else args
    let args2 :=
      match c.region with
      | some r => { args1 with region := r }
      | none => args1
    match c.exclude with
    | some l => { args2 with exclude := l ++ [".bunnysync"] }
    | none => args2

/-- Modelled from the spec: section 6 specifies putObject(path, bytes) as
uploading bytes to `path`, replacing any existing object, and section 3
makes container path plus name the unique key of an object.  Hence,
after a live push run against an initially empty remote namespace, the
objects present remotely are exactly those at the putObject event paths
of the run. -/
def remoteKeysAfter (events : List Event) : List String :=
  events.filterMap
    (fun e =>
      match e with
      | Event.putObject p _ => some p
      | _ => none)

/-! ## Concrete data used to instantiate theorems with hypotheses -/

/-- A local file used by the comparison-direction analysis: newer than
its remote counterpart. -/
def c1Local : LocalFile :=
  { relative_path := "b.txt", path := "site/b.txt", is_directory := false,
    last_changed := 5, length := 7 }

/-- A local file older than its remote counterpart. -/
def c1LocalOld : LocalFile :=
  { relative_path := "b.txt", path := "site/b.txt", is_directory := false,
    last_changed := 3, length := 7 }

/-- A remote object older than c1Local, with equal length. -/
def c1Remote : StorageObject :=
  { path := "/z/", object_name := "b.txt", length := 7, last_changed := 3,
    is_directory := false }

/-- A remote object newer than c1LocalOld, with equal length. -/
def c1RemoteNew : StorageObject :=
  { path := "/z/", object_name := "b.txt", length := 7, last_changed := 5,
    is_directory := false }

/-- The single local file of the pull-delete analysis. -/
def c3Local : LocalFile :=
  { relative_path := "a.txt", path := "site/a.txt", is_directory := false,
    last_changed := 10, length := 3 }

/-- A file entry of the sample remote listing. -/
def c5FileA : StorageObject :=
  { path := "/z/", object_name := "a", length := 1, last_changed := 0,
    is_directory := false }

/-- The directory entry of the sample remote listing. -/
def c5DirD : StorageObject :=
  { path := "/z/", object_name := "d", length := 0, last_changed := 0,
    is_directory := true }

/-- The file inside the sample sub-directory. -/
def c5FileB : StorageObject :=
  { path := "/z/d/", object_name := "b", length := 2, last_changed := 0,
    is_directory := false }

/-- A sample listOneLevel capability: a root with one file and one
sub-directory one level deep, the sub-directory holding one file. -/
def sampleListing : String → List StorageObject := fun p =>
  if p = "/z/" then [c5FileA, c5DirD]
  else if p = "/z/d/" then [c5FileB]
  else []

/-- The single local file of the idempotence analysis. -/
def c9Local : LocalFile :=
  { relative_path := "a.txt", path := "site/a.txt", is_directory := false,
    last_changed := 10, length := 3 }

/-- The remote object sitting at the fixed destination path "z" after the
first push run, with favourable metadata (newer and of equal length). -/
def c9RemoteObj : StorageObject :=
  { path := "", object_name := "z", length := 3, last_changed := 99,
    is_directory := false }

/-- Sample CLI arguments for the configuration analysis. -/
def c10Args : Args :=
  { api_key := none, region := "de", source := "site",
    destination := "zone://z", dry_run := false, delete := false,
    exclude := [] }

/-- A sample configuration file carrying an exclusion list. -/
def c10Conf : Config :=
  { api_key := some "k", region := none, exclude := some ["*.tmp"] }

/-! ## Helper lemmas -/

theorem listFlat_mem {α β : Type} (f : α → List β) (l : List α) (b : β) :
    b ∈ listFlat f l ↔ ∃ a, a ∈ l ∧ b ∈ f a := by
  induction l with
  | nil => simp [listFlat]
  | cons x xs ih =>
    simp only [listFlat, List.mem_append, ih, List.mem_cons]
    constructor
    · rintro (h | ⟨a, ha, hb⟩)
      · exact ⟨x, Or.inl rfl, h⟩
      · exact ⟨a, Or.inr ha, hb⟩
    · rintro ⟨a, ha | ha, hb⟩
      · exact Or.inl (ha ▸ hb)
      · exact Or.inr ⟨a, ha, hb⟩

theorem listFlat_all {α β : Type} (f : α → List β) (g : β → Bool) (l : List α) :
    (listFlat f l).all g = l.all (fun a => (f a).all g) := by
  induction l with
  | nil => rfl
  | cons x xs ih => simp [listFlat, List.all_append, ih]

theorem strDataAppend (a b : String) : (a ++ b).data = a.data ++ b.data := by
  cases a
  cases b
  rfl

theorem strMkData (s : String) : String.mk s.data = s := by
  cases s
  rfl

theorem appendLeftCancel (s t u : String) (h : s ++ t = s ++ u) : t = u := by
  have hd : s.data ++ t.data = s.data ++ u.data := by
    have := congrArg String.data h
    simpa [strDataAppend] using this
  have : t.data = u.data := List.append_cancel_left hd
  calc t = String.mk t.data := (strMkData t).symm
    _ = String.mk u.data := by rw [this]
    _ = u := strMkData u

/-! ## Claim C1 -/

/-- C1: the claim states that in both directions an entry is skipped iff
destination.modified_at >= source.modified_at with equal lengths, the
destination being the LOCAL entry in pull mode.  The code instead reuses
the push-mode comparison verbatim in sync_to_local (src/main.rs line
200: local <= remote skips), so pull mode inverts the claimed rule.
This theorem evaluates the per-entry body of sync_to_local at the failing
inputs: with the local (destination) entry NEWER than the remote
(source) entry and lengths equal, the claim requires a skip but the code
emits a Transfer; with the local entry OLDER, the claim requires a
Transfer but the code skips. -/
theorem C1_pull_comparison_inverted_eval :
    (c1Local.last_changed = 5 ∧ c1Remote.last_changed = 3 ∧
      c1Local.length = c1Remote.length ∧
      pullEntryEvents (fun _ => true) "site" "z" false
        [("/z/b.txt", c1Local)] "/z/b.txt" c1Remote ≠ []) ∧
    (c1LocalOld.last_changed = 3 ∧ c1RemoteNew.last_changed = 5 ∧
      c1LocalOld.length = c1RemoteNew.length ∧
      pullEntryEvents (fun _ => true) "site" "z" false
        [("/z/b.txt", c1LocalOld)] "/z/b.txt" c1RemoteNew = []) := by
  decide

/-! ## Claim C3 -/

/-- C3: the claim states that a pull-mode delete removes the local file
for the key, i.e. the file under the local base directory.  The code
(src/main.rs line 239) calls std::fs::remove_file on the map KEY, the
zone-rooted sync key string.  Evaluated at a run whose local map holds
the single key /z/a.txt for the file site/a.txt: the removal targets
/z/a.txt, although the local file for that key is site/a.txt (as both
the stored LocalFile path and the path mapper agree). -/
theorem C3_pull_delete_targets_key_eval :
    sync_to_local (fun _ => true) [c3Local] [] "site" "zone://z" false true []
        = [Event.removeFile "/z/a.txt", Event.logLine "Deleted: /z/a.txt"] ∧
      c3Local.path = "site/a.txt" ∧
      renderPath (get_path "site" "z" "/z/a.txt") = "site/a.txt" ∧
      ("/z/a.txt" : String) ≠ "site/a.txt" := by
  decide

/-! ## Claim C4 -/

/-- C4: the claim states is_excluded(name, patterns) is true iff some
pattern glob-matches name, the name being the matched input.  The source
passes the arguments to the glob-match crate in the swapped order (the
file name as the glob pattern, the exclusion pattern as the matched
string), so a wildcard exclusion pattern never matches: the pattern
*.log does glob-match the name a.log, yet is_excluded returns false;
conversely a file literally named * is excluded by the wildcard-free
pattern a.log, which does not glob-match the name *. -/
theorem C4_is_excluded_arguments_swapped_eval :
    globMatch "*.log" "a.log" = true ∧
      is_excluded "a.log" ["*.log"] = false ∧
      globMatch "a.log" "*" = false ∧
      is_excluded "*" ["a.log"] = true ∧
      is_excluded "anything" [] = false := by
  decide

/-! ## Claim C9 -/

/-- C9: the claim states that a second push run against the remote state
produced by a first push of an unchanged local tree emits zero Transfer
actions.  Evaluated at a one-file local tree and an initially empty
remote: the only upload of the first run goes to the FIXED destination path
"z" (the stripped remote root), not to the sync key /z/a.txt, so the
resulting remote namespace holds exactly one object at key "z"; the
second run, fed a remote map holding that object (even with a newer
timestamp and equal length), still finds no remote entry at /z/a.txt
and uploads again - one Transfer, not zero. -/
theorem C9_second_push_retransfers_eval :
    remoteKeysAfter (sync_to_remote [c9Local] [] "zone://z" false false [])
        = ["z"] ∧
      remoteKeysAfter
          (sync_to_remote [c9Local] [c9RemoteObj] "zone://z" false false [])
        = ["z"] ∧
      (get_remote_file_map [] [c9RemoteObj]).map Prod.fst = ["z"] := by
  decide

/-! ## Claim C2 -/

theorem pushEntry_put_fixed (remote : String) (dry : Bool) (ex : List String)
    (rfm : List (String × StorageObject)) (k : String) (lf : LocalFile) :
    (pushEntryEvents remote dry ex rfm k lf).all
      (fun e =>
        match e with
        | Event.putObject p _ => p == remote
        | _ => true) = true := by
  by_cases h1 : is_excluded (fileName lf.path) ex
  · simp [pushEntryEvents, h1]
  · cases hs :
      (match List.lookup k rfm with
       | some ro =>
         decide (lf.last_changed ≤ ro.last_changed) && decide (lf.length = ro.length)
       | none => false) <;>
      cases dry <;> simp [pushEntryEvents, h1, hs]

theorem pushDelete_put_fixed (remote : String) (dry : Bool)
    (lfm : List (String × LocalFile)) (k : String) :
    (pushDeleteEvents dry lfm k).all
      (fun e =>
        match e with
        | Event.putObject p _ => p == remote
        | _ => true) = true := by
  cases hl : (List.lookup k lfm).isSome <;> cases dry <;>
    simp [pushDeleteEvents, hl]

/-- C2: in push mode, the remote path of every putObject call issued by
sync_to_remote is the single pre-stripped remote root path of the run,
identical for every transferred file and independent of the sync key
of the entry. -/
theorem C2_push_uploads_to_fixed_destination (localEnum : List LocalFile)
    (remoteEnum : List StorageObject) (remoteArg : String)
    (dry_run delete : Bool) (exclude : List String) :
    (sync_to_remote localEnum remoteEnum remoteArg dry_run delete exclude).all
      (fun e =>
        match e with
        | Event.putObject p _ => p == strip_zone_prefix remoteArg
        | _ => true) = true := by
  simp only [sync_to_remote]
  rw [List.all_append, Bool.and_eq_true]
  constructor
  · rw [listFlat_all, List.all_eq_true]
    intro kv _
    exact pushEntry_put_fixed _ _ _ _ _ _
  · cases delete
    · simp
    · simp only [if_true]
      rw [listFlat_all, List.all_eq_true]
      intro kv _
      exact pushDelete_put_fixed _ _ _ _

/-! ## Claim C6 -/

theorem deleteObject_not_mem_pushEntry (k remote : String) (dry : Bool)
    (ex : List String) (rfm : List (String × StorageObject)) (k' : String)
    (lf : LocalFile) :
    Event.deleteObject k ∉ pushEntryEvents remote dry ex rfm k' lf := by
  by_cases h1 : is_excluded (fileName lf.path) ex
  · simp [pushEntryEvents, h1]
  · cases hs :
      (match List.lookup k' rfm with
       | some ro =>
         decide (lf.last_changed ≤ ro.last_changed) && decide (lf.length = ro.length)
       | none => false) <;>
      cases dry <;> simp [pushEntryEvents, h1, hs]

theorem mem_pushDeleteEvents (k k' : String) (dry : Bool)
    (lfm : List (String × LocalFile)) :
    Event.deleteObject k ∈ pushDeleteEvents dry lfm k' ↔
      k' = k ∧ dry = false ∧ List.lookup k' lfm = none := by
  cases hl : List.lookup k' lfm with
  | none => cases dry <;> simp [pushDeleteEvents, hl, eq_comm]
  | some v => cases dry <;> simp [pushDeleteEvents, hl]

/-- C6: in push mode, a remote delete is issued at key k exactly when the
delete flag is set, the run is live, k is present in the remote map and
absent from the local map; in particular with the delete flag unset no
remote object is ever deleted. -/
theorem C6_push_delete_exactly_orphans (localEnum : List LocalFile)
    (remoteEnum : List StorageObject) (remoteArg : String)
    (dry_run delete : Bool) (exclude : List String) (k : String) :
    Event.deleteObject k ∈
        sync_to_remote localEnum remoteEnum remoteArg dry_run delete exclude ↔
      delete = true ∧ dry_run = false ∧
        (∃ o, (k, o) ∈ get_remote_file_map exclude remoteEnum) ∧
        List.lookup k
            (get_local_file_map (zone_name ( strip_zone_prefix remoteArg))
              exclude localEnum) = none := by
  simp only [sync_to_remote, List.mem_append]
  constructor
  · rintro (h1 | h2)
    · exfalso
      rcases (listFlat_mem _ _ _).mp h1 with ⟨kv, _, hin⟩
      exact deleteObject_not_mem_pushEntry _ _ _ _ _ _ _ hin
    · cases hdel : delete with
      | false => rw [hdel] at h2; simp at h2
      | true =>
        rw [hdel] at h2
        simp only [if_true] at h2
        rcases (listFlat_mem _ _ _).mp h2 with ⟨kv, hkv, hin⟩
        rcases (mem_pushDeleteEvents _ _ _ _).mp hin with ⟨hk, hdry, hnone⟩
        refine ⟨rfl, hdry, ⟨kv.2, ?_⟩, ?_⟩
        · rw [← hk]; exact hkv
        · rw [← hk]; exact hnone
  · rintro ⟨hdel, hdry, ⟨o, ho⟩, hnone⟩
    right
    rw [hdel]
    simp only [if_true]
    refine (listFlat_mem _ _ _).mpr ⟨(k, o), ho, ?_⟩
    exact (mem_pushDeleteEvents _ _ _ _).mpr ⟨rfl, hdry, hnone⟩

/-! ## Claim C7 -/

theorem pushEntry_dry_not_mutating (remote : String) (ex : List String)
    (rfm : List (String × StorageObject)) (k : String) (lf : LocalFile) :
    (pushEntryEvents remote true ex rfm k lf).all (fun e => !isMutating e)
      = true := by
  by_cases h1 : is_excluded (fileName lf.path) ex
  · simp [pushEntryEvents, h1]
  · cases hs :
      (match List.lookup k rfm with
       | some ro =>
         decide (lf.last_changed ≤ ro.last_changed) && decide (lf.length = ro.length)
       | none => false) <;>
      simp [pushEntryEvents, h1, hs, isMutating]

theorem pullEntry_dry_not_mutating (dirExists : RPath → Bool)
    (localBase zname : String) (lfm : List (String × LocalFile))
    (k : String) (ro : StorageObject) :
    (pullEntryEvents dirExists localBase zname true lfm k ro).all
      (fun e => !isMutating e) = true := by
  cases hs :
    (match List.lookup k lfm with
     | some lf =>
       decide (lf.last_changed ≤ ro.last_changed) && decide (lf.length = ro.length)
     | none => false) <;>
    simp [pullEntryEvents, hs, isMutating]

theorem pushDelete_dry_not_mutating (lfm : List (String × LocalFile))
    (k : String) :
    (pushDeleteEvents true lfm k).all (fun e => !isMutating e) = true := by
  cases hl : (List.lookup k lfm).isSome <;>
    simp [pushDeleteEvents, hl, isMutating]

theorem pullDelete_dry_not_mutating (rfm : List (String × StorageObject))
    (k : String) :
    (pullDeleteEvents true rfm k).all (fun e => !isMutating e) = true := by
  cases hl : (List.lookup k rfm).isSome <;>
    simp [pullDeleteEvents, hl, isMutating]

/-- C7: a dry run issues no mutating Storage Client call and no mutating
filesystem operation, in either direction, and the per-entry decisions
(update or skip, delete or keep) coincide with those of a live run on
identical inputs: an entry or key produces no action in a dry run
exactly when it produces none in a live run. -/
theorem C7_dry_run_mutates_nothing_same_decisions (dirExists : RPath → Bool)
    (localEnum : List LocalFile) (remoteEnum : List StorageObject)
    (localBase remoteArg : String) (delete : Bool) (exclude : List String) :
    ((sync_to_remote localEnum remoteEnum remoteArg true delete exclude).all
        (fun e => !isMutating e) = true) ∧
      ((sync_to_local dirExists localEnum remoteEnum localBase remoteArg true
            delete exclude).all
        (fun e => !isMutating e) = true) ∧
      (∀ (remote : String) (rfm : List (String × StorageObject)) (k : String)
          (lf : LocalFile),
        (pushEntryEvents remote true exclude rfm k lf = []) ↔
          (pushEntryEvents remote false exclude rfm k lf = [])) ∧
      (∀ (lfm : List (String × LocalFile)) (k : String),
        (pushDeleteEvents true lfm k = []) ↔ (pushDeleteEvents false lfm k = [])) ∧
      (∀ (zname : String) (lfm : List (String × LocalFile)) (k : String)
          (ro : StorageObject),
        (pullEntryEvents dirExists localBase zname true lfm k ro = []) ↔
          (pullEntryEvents dirExists localBase zname false lfm k ro = [])) ∧
      (∀ (rfm : List (String × StorageObject)) (k : String),
        (pullDeleteEvents true rfm k = []) ↔ (pullDeleteEvents false rfm k = [])) := by
  refine ⟨?_, ?_, ?_, ?_, ?_, ?_⟩
  · simp only [sync_to_remote]
    rw [List.all_append, Bool.and_eq_true]
    constructor
    · rw [listFlat_all, List.all_eq_true]
      intro kv _
      exact pushEntry_dry_not_mutating _ _ _ _ _
    · cases delete
      · simp
      · simp only [if_true]
        rw [listFlat_all, List.all_eq_true]
        intro kv _
        exact pushDelete_dry_not_mutating _ _
  · simp only [sync_to_local]
    rw [List.all_append, Bool.and_eq_true]
    constructor
    · rw [listFlat_all, List.all_eq_true]
      intro kv _
      exact pullEntry_dry_not_mutating _ _ _ _ _ _
    · cases delete
      · simp
      · simp only [if_true]
        rw [listFlat_all, List.all_eq_true]
        intro kv _
        exact pullDelete_dry_not_mutating _ _
  · intro remote rfm k lf
    by_cases h1 : is_excluded (fileName lf.path) exclude
    · simp [pushEntryEvents, h1]
    · cases hs :
        (match List.lookup k rfm with
         | some ro =>
           decide (lf.last_changed ≤ ro.last_changed) && decide (lf.length = ro.length)
         | none => false) <;>
        simp [pushEntryEvents, h1, hs]
  · intro lfm k
    cases hl : (List.lookup k lfm).isSome <;> simp [pushDeleteEvents, hl]
  · intro zname lfm k ro
    cases hs :
      (match List.lookup k lfm with
       | some lf =>
         decide (lf.last_changed ≤ ro.last_changed) && decide (lf.length = ro.length)
       | none => false) <;>
      simp [pullEntryEvents, hs]
  · intro rfm k
    cases hl : (List.lookup k rfm).isSome <;> simp [pullDeleteEvents, hl]

/-! ## Claim C5 -/

theorem gaoLoop_nil (listing : String → List StorageObject) (fuel : Nat)
    (objs : List StorageObject) :
    gaoLoop listing fuel objs [] = some (objs, []) := by
  cases fuel <;> rfl

theorem foldl_no_dirs (l : List StorageObject) (st : List String)
    (h : l.all (fun r => !r.is_directory) = true) :
    l.foldl
        (fun st r =>
          if r.is_directory then (r.path ++ r.object_name ++ "/") :: st else st)
        st = st := by
  induction l generalizing st with
  | nil => rfl
  | cons x xs ih =>
    rw [List.all_cons, Bool.and_eq_true] at h
    have hx : x.is_directory = false := by
      cases hd : x.is_directory
      · rfl
      · rw [hd] at h; simp at h
    simp only [List.foldl_cons, hx, if_false]
    exact ih _ h.2

/-- C5: the remote enumerator seeds its worklist with the root path,
pops one path at a time, lists it, pushes for every directory child the
full path (container path plus name plus a separator) and appends every
returned entry to the result; a remote tree whose root holds exactly one
sub-directory, itself holding only files, is fully enumerated with
exactly two listOneLevel calls, first on the root and then on the
discovered sub-directory. -/
theorem C5_worklist_enumeration_two_calls
    (listing : String → List StorageObject) (root sub : String)
    (pre post : List StorageObject) (d : StorageObject) (fuel : Nat)
    (hroot : listing root = pre ++ d :: post)
    (hd : d.is_directory = true)
    (hpre : pre.all (fun r => !r.is_directory) = true)
    (hpost : post.all (fun r => !r.is_directory) = true)
    (hsub : sub = d.path ++ d.object_name ++ "/")
    (hsubf : (listing sub).all (fun r => !r.is_directory) = true)
    (hfuel : 2 ≤ fuel) :
    get_all_objects listing fuel root
      = some (listing root ++ listing sub, [root, sub]) := by
  obtain ⟨n, rfl⟩ : ∃ n, fuel = n + 1 + 1 := ⟨fuel - 2, by omega⟩
  have h1 :
      (pre ++ d :: post).foldl
          (fun st r =>
            if r.is_directory then (r.path ++ r.object_name ++ "/") :: st else st)
          [] = [sub] := by
    rw [List.foldl_append, foldl_no_dirs pre [] hpre, List.foldl_cons, hd,
      foldl_no_dirs post _ hpost, hsub]
    rfl
  have h2 :
      (listing sub).foldl
          (fun st r =>
            if r.is_directory then (r.path ++ r.object_name ++ "/") :: st else st)
          [] = [] := foldl_no_dirs _ _ hsubf
  show gaoLoop listing (n + 1 + 1) [] [root] = _
  rw [gaoLoop]
  simp only [hroot, h1]
  rw [gaoLoop]
  simp only [h2, gaoLoop_nil]
  simp

/-- Witness instantiating the enumeration theorem at the sample listing:
both hypotheses hold there and two calls suffice. -/
theorem C5_worklist_enumeration_two_calls_witness :
    get_all_objects sampleListing 2 "/z/"
      = some (sampleListing "/z/" ++ sampleListing "/z/d/", ["/z/", "/z/d/"]) :=
  C5_worklist_enumeration_two_calls sampleListing "/z/" "/z/d/" [c5FileA] []
    c5DirD 2 (by decide) (by decide) (by decide) (by decide) (by decide)
    (by decide) (by decide)

/-! ## Claim C8 -/

theorem splitSlash_no_slash (l : List Char) (h : ∀ c ∈ l, c ≠ '/') :
    splitSlash l = [l] := by
  induction l with
  | nil => rfl
  | cons c cl ih =>
    have hc : c ≠ '/' := h c (by simp)
    rw [splitSlash, if_neg hc, ih (fun x hx => h x (by simp [hx]))]

theorem splitSlash_append (l r : List Char) (h : ∀ c ∈ l, c ≠ '/') :
    splitSlash (l ++ '/' :: r) = l :: splitSlash r := by
  induction l with
  | nil => rw [List.nil_append, splitSlash, if_pos rfl]
  | cons c cl ih =>
    have hc : c ≠ '/' := h c (by simp)
    rw [List.cons_append, splitSlash, if_neg hc,
      ih (fun x hx => h x (by simp [hx]))]

theorem strAppendEmpty (s : String) : s ++ "" = s := by
  cases s with
  | mk l => exact congrArg String.mk (List.append_nil l)

theorem filterMap_id_map_some {α : Type} (l : List α) :
    (l.map some).filterMap id = l := by
  induction l with
  | nil => rfl
  | cons x xs ih => simp [List.filterMap_cons, ih]

theorem notCur_curDir : notCur Comp.curDir = false := rfl

theorem notCur_parentDir : notCur Comp.parentDir = true := rfl

theorem notCur_normal (s : String) : notCur (Comp.normal s) = true := rfl

theorem filter_notCur_idem (l : List Comp) :
    (l.filter notCur).filter notCur = l.filter notCur := by
  rw [List.filter_filter]
  apply List.filter_congr
  intro c _
  exact Bool.and_self (notCur c)

theorem normComps_idem (a : Bool) (l : List Comp) :
    normComps a (normComps a l) = normComps a l := by
  cases a with
  | true => simp [normComps, filter_notCur_idem]
  | false =>
    cases l with
    | nil => rfl
    | cons c rest =>
      cases c with
      | curDir => simp [normComps, filter_notCur_idem]
      | parentDir =>
        simp [normComps, List.filter_cons, notCur_parentDir, filter_notCur_idem]
      | normal s =>
        simp [normComps, List.filter_cons, notCur_normal, filter_notCur_idem]

theorem strDataSlash : ("/" : String).data = ['/'] := rfl

theorem isEmpty_false_of_ne_nil {l : List Char} (h : l ≠ []) :
    l.isEmpty = false := by
  cases l with
  | nil => exact absurd rfl h
  | cons a b => rfl

theorem toComp_zone (z : String) (hdot : z.data ≠ ['.'])
    (hdd : z.data ≠ ['.', '.']) : toComp z.data = Comp.normal z := by
  rw [toComp, if_neg hdot, if_neg hdd, strMkData]

theorem relComps_zone_cons (z t : String) (hz : z.data ≠ [])
    (hs : ∀ c ∈ z.data, c ≠ '/') (hdot : z.data ≠ ['.'])
    (hdd : z.data ≠ ['.', '.']) :
    relComps (z ++ "/" ++ t) = Comp.normal z :: relComps t := by
  have hdata : (z ++ "/" ++ t).data = z.data ++ '/' :: t.data := by
    simp [strDataAppend, strDataSlash]
  rw [relComps, pTokens, hdata, splitSlash_append _ _ hs]
  simp [List.filter_cons, isEmpty_false_of_ne_nil hz, toComp_zone z hdot hdd,
    normComps, List.map_cons, notCur_normal, relComps, pTokens]

theorem parsePath_zoned (z rest : String) (hz : z.data ≠ [])
    (hs : ∀ c ∈ z.data, c ≠ '/') (hdot : z.data ≠ ['.'])
    (hdd : z.data ≠ ['.', '.']) :
    parsePath ("/" ++ z ++ "/" ++ rest)
      = { abs := true, comps := Comp.normal z :: relComps rest } := by
  have hdata : ("/" ++ z ++ "/" ++ rest).data
      = '/' :: (z.data ++ '/' :: rest.data) := by
    simp [strDataAppend, strDataSlash]
  have habs : isAbs ("/" ++ z ++ "/" ++ rest) = true := by
    simp [isAbs, hdata]
  have htok : pTokens ("/" ++ z ++ "/" ++ rest) = z.data :: pTokens rest := by
    rw [pTokens, hdata, splitSlash, if_pos rfl, splitSlash_append _ _ hs]
    simp [List.filter_cons, isEmpty_false_of_ne_nil hz, pTokens]
  simp only [parsePath, habs, htok]
  simp [normComps, List.map_cons, toComp_zone z hdot hdd, List.filter_cons,
    notCur_normal, relComps, pTokens]

theorem parsePath_pref (z : String) (hz : z.data ≠ [])
    (hs : ∀ c ∈ z.data, c ≠ '/') (hdot : z.data ≠ ['.'])
    (hdd : z.data ≠ ['.', '.']) :
    parsePath ("/" ++ z ++ "/") = { abs := true, comps := [Comp.normal z] } := by
  have h := parsePath_zoned z "" hz hs hdot hdd
  rw [strAppendEmpty] at h
  rw [h]
  have : relComps "" = [] := by decide
  rw [this]

theorem parsePath_slash_zone (z : String) (hz : z.data ≠ [])
    (hs : ∀ c ∈ z.data, c ≠ '/') (hdot : z.data ≠ ['.'])
    (hdd : z.data ≠ ['.', '.']) :
    parsePath ("/" ++ z) = { abs := true, comps := [Comp.normal z] } := by
  have hdata : ("/" ++ z).data = '/' :: z.data := by
    simp [strDataAppend, strDataSlash]
  have habs : isAbs ("/" ++ z) = true := by simp [isAbs, hdata]
  have htok : pTokens ("/" ++ z) = [z.data] := by
    rw [pTokens, hdata, splitSlash, if_pos rfl, splitSlash_no_slash _ hs]
    simp [List.filter_cons, isEmpty_false_of_ne_nil hz]
  simp only [parsePath, habs, htok]
  simp [normComps, toComp_zone z hdot hdd, List.filter_cons, notCur_normal]

theorem parsePath_empty : parsePath "" = { abs := false, comps := [] } := by
  decide

theorem strip_zoned (z : String) (R : List Comp) :
    stripPrefixPath { abs := true, comps := Comp.normal z :: R }
        { abs := true, comps := [Comp.normal z] }
      = some { abs := false, comps := R } := by
  have hpre :
      (fullComps { abs := true, comps := [Comp.normal z] }).isPrefixOf
          (fullComps { abs := true, comps := Comp.normal z :: R }) = true := by
    simp [fullComps, List.isPrefixOf]
  rw [stripPrefixPath, if_pos hpre]
  simp [fullComps, filterMap_id_map_some]

theorem strip_fail_empty (z : String) :
    stripPrefixPath { abs := false, comps := ([] : List Comp) }
        { abs := true, comps := [Comp.normal z] } = none := by
  rw [stripPrefixPath, if_neg]
  simp [fullComps, List.isPrefixOf]

theorem pathPush_empty (s : String) :
    pathPush (parsePath s) { abs := false, comps := [] } = parsePath s := by
  simp [parsePath, pathPush, normComps_idem]

/-- C8: with `p` beginning with one `/z/` prefix, the path mapper strips
exactly that prefix and pushes the remainder components onto the local
base; the remainder of a doubly zone-prefixed path retains the second
zone segment literally; an empty remote path or the bare zone root path
`/z` both map to the local base itself. -/
theorem C8_path_mapper_strips_one_zone_prefix (lb z rest : String)
    (hz : z.data ≠ []) (hs : ∀ c ∈ z.data, c ≠ '/')
    (hdot : z.data ≠ ['.']) (hdd : z.data ≠ ['.', '.']) :
    get_path lb z ("/" ++ z ++ "/" ++ rest)
        = pathPush (parsePath lb) { abs := false, comps := relComps rest } ∧
      (∀ t : String, relComps (z ++ "/" ++ t) = Comp.normal z :: relComps t) ∧
      get_path lb z "" = parsePath lb ∧
      get_path lb z ("/" ++ z) = parsePath lb := by
  refine ⟨?_, ?_, ?_, ?_⟩
  · simp only [get_path]
    rw [parsePath_zoned z rest hz hs hdot hdd, parsePath_pref z hz hs hdot hdd,
      strip_zoned]
    rfl
  · intro t
    exact relComps_zone_cons z t hz hs hdot hdd
  · simp only [get_path]
    rw [parsePath_empty, parsePath_pref z hz hs hdot hdd, strip_fail_empty]
    exact pathPush_empty lb
  · simp only [get_path]
    rw [parsePath_slash_zone z hz hs hdot hdd,
      parsePath_pref z hz hs hdot hdd, strip_zoned]
    exact pathPush_empty lb

/-- Witness instantiating the path-mapper theorem at a concrete base,
zone and remainder. -/
theorem C8_path_mapper_strips_one_zone_prefix_witness :
    get_path "/local/base" "myzone" ("/" ++ "myzone" ++ "/" ++ "a/b")
        = pathPush (parsePath "/local/base")
            { abs := false, comps := relComps "a/b" } ∧
      (∀ t : String,
        relComps ("myzone" ++ "/" ++ t) = Comp.normal "myzone" :: relComps t) ∧
      get_path "/local/base" "myzone" "" = parsePath "/local/base" ∧
      get_path "/local/base" "myzone" ("/" ++ "myzone")
        = parsePath "/local/base" :=
  C8_path_mapper_strips_one_zone_prefix "/local/base" "myzone" "a/b"
    (by decide) (by decide) (by decide) (by decide)

/-! ## Claim C10 -/

/-- C10: when the configuration file supplies an exclusion list, the
pattern ".bunnysync" is appended to it before the engine runs, that
pattern does match a file named .bunnysync under is_excluded, and no
entry whose file name is .bunnysync can appear in the local sync map
built with the resulting list (so the configuration file is never
transferred); when the configuration supplies no exclusion list, the
argument list is left unchanged and no pattern is added. -/
theorem C10_config_forces_bunnysync_exclusion (args : Args) (c : Config) :
    (∀ l : List String, c.exclude = some l →
        (read_config_file args (some c)).exclude = l ++ [".bunnysync"] ∧
          is_excluded ".bunnysync" ((read_config_file args (some c)).exclude)
            = true ∧
          (∀ (zone : String) (files : List LocalFile) (kv : String × LocalFile),
            kv ∈ get_local_file_map zone
                ((read_config_file args (some c)).exclude) files →
            fileName kv.2.path ≠ ".bunnysync")) ∧
      (c.exclude = none →
        (read_config_file args (some c)).exclude = args.exclude) := by
  constructor
  · intro l hl
    have hex : (read_config_file args (some c)).exclude = l ++ [".bunnysync"] := by
      simp [read_config_file, hl]
    have hexc : is_excluded ".bunnysync" (l ++ [".bunnysync"]) = true := by
      rw [is_excluded, List.any_append]
      have h1 : (([".bunnysync"] : List String).any
          (fun pattern => globMatch ".bunnysync" pattern)) = true := by decide
      rw [h1, Bool.or_true]
    refine ⟨hex, by rw [hex]; exact hexc, ?_⟩
    intro zone files kv hkv hname
    simp only [get_local_file_map, List.mem_map] at hkv
    obtain ⟨f, hf, hfeq⟩ := hkv
    rw [List.mem_filter] at hf
    have hcond := hf.2
    have h2 : kv.2 = f := by rw [← hfeq]
    rw [h2] at hname
    rw [hname, hex, hexc] at hcond
    simp at hcond
  · intro hl
    cases hr : c.region with
    | none => cases ha : c.api_key.isSome <;> simp [read_config_file, hl, hr, ha]
    | some r => cases ha : c.api_key.isSome <;> simp [read_config_file, hl, hr, ha]

/-- Witness instantiating the configuration theorem at a sample
configuration carrying the exclusion list ["*.tmp"]. -/
theorem C10_config_forces_bunnysync_exclusion_witness :
    (read_config_file c10Args (some c10Conf)).exclude
        = ["*.tmp"] ++ [".bunnysync"] ∧
      is_excluded ".bunnysync"
        ((read_config_file c10Args (some c10Conf)).exclude) = true := by
  have h := (C10_config_forces_bunnysync_exclusion c10Args c10Conf).1 ["*.tmp"] rfl
  exact ⟨h.1, h.2.1⟩
